import Mathlib

/-!
Verification of the scheduling-resolution and playback-continuity engine of a
digital-signage content manager.  The definitions below are a shallow
embedding of the TypeScript source: the playlist resolver and duration
resolver of the player page, the command applier, the in-memory store with
its cascade/validation rules, and the HTTP command-queue route.  JavaScript
numbers are modelled as rationals, with `Option` marking NaN where the code
can produce it; fallible property accesses are modelled with `Except`.
-/

namespace Signage

/-! ### JavaScript primitives used by the embedding -/

/-- Decimal value of a character list when it is all digits, else `none`. -/
def digitsToNat? (cs : List Char) : Option Nat :=
  cs.foldl (fun acc c =>
    match acc with
    | none => none
    | some n => if c.isDigit then some (n * 10 + (c.toNat - 48)) else none) (some 0)

/-- Model of JS `Number(s)` on the strings that occur as `"HH"` / `"MM"`
components: `""` converts to `0`, a digit string to its value, anything
else to NaN (`none`). -/
def jsNumberOfString (s : String) : Option Int :=
  if s = "" then some 0 else (digitsToNat? s.data).map Int.ofNat

/-- JS falsiness of an optional string: `undefined` and `""` are falsy. -/
def strFalsy (o : Option String) : Bool := o.getD "" = ""

/-- Insert `x` into `l` after every element `y` with `le y x`.  Used to model
stable `Array.prototype.sort`. -/
def jsSortInsert (le : α → α → Bool) (x : α) : List α → List α
  | [] => [x]
  | y :: ys => if le y x then y :: jsSortInsert le x ys else x :: y :: ys

/-- Stable sort modelling JS `Array.prototype.sort` with a comparator whose
induced "keeps y before x" relation is `le`.  ES2019 requires the sort to be
stable; any stable sort is a faithful model, and insertion from the left
keeps earlier elements before later equal ones. -/
def jsSort (le : α → α → Bool) (l : List α) : List α :=
  l.foldl (fun acc x => jsSortInsert le x acc) []

/-! ### Data model

`FileItem` and `ScheduleItem` follow `src/lib/store.ts`; fields irrelevant to
the claims (`size`, `storage` paths, `url`, …) are kept only where an
operation reads them. -/

structure FileItem where
  id : String
  name : String
  mime : String
  storage : String := "public"
  path : String := ""
  uploadedAt : Int := 0
  durationSeconds : Option ℚ := none
  deriving DecidableEq, Repr

structure ScheduleItem where
  id : String
  fileId : String
  startAt : Int
  endAt : Int
  order : Int
  days : Option (List Nat) := none
  startTime : Option String := none
  endTime : Option String := none
  durationSeconds : Option ℚ := none
  deriving DecidableEq, Repr

/-! ### Playlist resolver (`activePlaylist` in `player/page.tsx`) -/

/-- `toMin` from the player page: `t.split(":").map(Number)` then
`h * 60 + (m || 0)`; a NaN hour makes the whole expression NaN (`none`). -/
def toMin (t : String) : Option Int :=
  let parts := t.splitOn ":"
  match jsNumberOfString (parts.getD 0 "") with
  | some h => some (h * 60 + (jsNumberOfString (parts.getD 1 "")).getD 0)
  | none => none

/-- `inTimeWindow` from the player page: passes when both bounds are absent,
otherwise checks `mins >= s && mins <= e` with `s` defaulting to `0` and `e`
to `24*60`; a NaN bound makes the comparison false. -/
def inTimeWindow (mins : Int) (start stop : Option String) : Bool :=
  if strFalsy start && strFalsy stop then true
  else
    let s := if strFalsy start then some 0 else toMin (start.getD "")
    let e := if strFalsy stop then some (24 * 60) else toMin (stop.getD "")
    match s, e with
    | some sv, some ev => decide (sv ≤ mins ∧ mins ≤ ev)
    | _, _ => false

/-- `activePlaylist` from the player page, with the ambient local-clock reads
(`Date.now()`, `getDay()`, minutes of day) passed in as `now`, `day`,
`mins`.  Filters by active window, day set and daily clock window, then
sorts ascending by `order`. -/
def activePlaylist (now : Int) (day : Nat) (mins : Int)
    (schedules : List ScheduleItem) : List ScheduleItem :=
  jsSort (fun a b => decide (a.order ≤ b.order))
    (((schedules.filter (fun s => decide (s.startAt ≤ now) && decide (now ≤ s.endAt))).filter
        (fun s => match s.days with | some ds => ds.contains day | none => true)).filter
      (fun s => inTimeWindow mins s.startTime s.endTime))

/-! ### Duration resolver (`getEffectiveDuration` / `setBackup` in the player) -/

/-- Global player settings relevant to the Duration Resolver
(`PlayerSettings` in `src/lib/store.ts`). -/
structure PlayerSettings where
  defaultImageDuration : ℚ := 10
  defaultLinkDuration : ℚ := 30
  deriving DecidableEq, Repr

/-- One resolved display-list entry: the fields of a schedule item or
fallback file entry that the sequencer reads (`fileId`, `durationSeconds`). -/
structure DisplayEntry where
  fileId : String
  durationSeconds : Option ℚ := none
  deriving DecidableEq, Repr

/-- `typeof x === 'number' && x > 0` (also `Number.isFinite(x) && x > 0`):
`none` models `undefined`/NaN. -/
def isPosNum (o : Option ℚ) : Bool :=
  match o with
  | some d => decide (0 < d)
  | none => false

/-- JS `x || dflt` on the finite numeric settings values: `0` is falsy. -/
def jsOrDefault (x dflt : ℚ) : ℚ := if x = 0 then dflt else x

/-- `s.startsWith(p)`, computed on the underlying character lists so that
concrete instances evaluate by `decide`. -/
def strStartsWith (s p : String) : Bool := p.data.isPrefixOf s.data

/-- `getEffectiveDuration` from the player page: schedule-item override,
else file-level override, else the mime-class global default
(`defaultImageDuration || 10`, `defaultLinkDuration || 30`), else 10. -/
def getEffectiveDuration (item : DisplayEntry) (file : FileItem)
    (settings : PlayerSettings) : ℚ :=
  if isPosNum item.durationSeconds then item.durationSeconds.getD 0
  else if isPosNum file.durationSeconds then file.durationSeconds.getD 0
  else if strStartsWith file.mime "image/" then jsOrDefault settings.defaultImageDuration 10
  else if strStartsWith file.mime "link/" then jsOrDefault settings.defaultLinkDuration 30
  else 10

/-- Seconds for which the advance timer is armed for an image/link item:
`Math.max(0.1, effectiveDuration)`. -/
def imageLinkTimerSec (item : DisplayEntry) (file : FileItem)
    (settings : PlayerSettings) : ℚ :=
  max (1/10) (getEffectiveDuration item file settings)

/-- Seconds for which the backup advance timer is armed for a video item
(`setBackup`): schedule override, else file override (each floored at 0.1),
else the probed natural duration — replaced by 30 when the metadata
duration is unavailable (`none` = NaN/Infinity) or non-positive — plus the
0.5s safety pad. -/
def videoTimerSec (item : DisplayEntry) (file : FileItem)
    (naturalDuration : Option ℚ) : ℚ :=
  if isPosNum item.durationSeconds then max (1/10) (item.durationSeconds.getD 0)
  else if isPosNum file.durationSeconds then max (1/10) (file.durationSeconds.getD 0)
  else (match naturalDuration with
        | some d => if 0 < d then d else 30
        | none => 30) + 1/2

/-! ### Display list and the files endpoint feeding it -/

/-- Fallback entry built from a registry file: it inherits the file's own
`durationSeconds` exactly when that is a positive number. -/
def fallbackEntry (f : FileItem) : DisplayEntry :=
  { fileId := f.id,
    durationSeconds := if isPosNum f.durationSeconds then f.durationSeconds else none }

/-- A schedule item used directly as a display entry (the resolver returns
the `activePlaylist` array itself; the sequencer reads `fileId` and
`durationSeconds` from it). -/
def ruleEntry (s : ScheduleItem) : DisplayEntry :=
  { fileId := s.fileId, durationSeconds := s.durationSeconds }

/-- `displayList` from the player page: the active playlist, or, when it is
empty, one entry per file of the fetched files list. -/
def displayList (active : List ScheduleItem) (files : List FileItem) :
    List DisplayEntry :=
  if active.length = 0 then files.map fallbackEntry else active.map ruleEntry

/-- `GET /api/files`: `Array.from(store.files.values())` (registry insertion
order) sorted by `(a,b) => b.uploadedAt - a.uploadedAt`, i.e. by
`uploadedAt` descending, stably. -/
def filesGET (registry : List FileItem) : List FileItem :=
  jsSort (fun a b => decide (b.uploadedAt ≤ a.uploadedAt)) registry

/-- The display list the player ends up with: registry → files endpoint →
`displayList`, with the schedule list and clock readings as inputs. -/
def playerDisplayList (registry : List FileItem) (schedules : List ScheduleItem)
    (now : Int) (day : Nat) (mins : Int) : List DisplayEntry :=
  displayList (activePlaylist now day mins schedules) (filesGET registry)

/-! ### `currentFile` (stale-reference handling in the player) -/

/-- `currentFile` from the player page.  When the display list is non-empty
the code reads `displayList[activeIndex].fileId`; if `activeIndex` is out of
range the indexing yields `undefined` and the property access throws a
TypeError, modelled as `Except.error ()`. -/
def currentFile (dl : List DisplayEntry) (activeIndex : Nat)
    (files : List FileItem) : Except Unit (Option FileItem) :=
  if dl.length = 0 then .ok none
  else
    match dl.get? activeIndex with
    | some item => .ok (files.find? (fun f => f.id == item.fileId))
    | none => .error ()

/-! ### Player runtime state, advance timer discipline, command applier -/

inductive Orientation
  | landscape
  | portrait
  deriving DecidableEq, Repr

/-- A JavaScript value as it appears in `msg.value`. -/
inductive JSVal
  | str (s : String)
  | num (q : ℚ)
  | undef
  deriving DecidableEq, Repr

/-- JS `Number(v)` on the values commands carry; `none` is NaN. -/
def toNumber : JSVal → Option ℚ
  | .num q => some q
  | .str s => (jsNumberOfString s).map (fun n => (n : ℚ))
  | .undef => none

/-- `Math.min`: NaN-propagating. -/
def jsMin (a b : Option ℚ) : Option ℚ :=
  match a, b with
  | some x, some y => some (min x y)
  | _, _ => none

/-- `Math.max`: NaN-propagating. -/
def jsMax (a b : Option ℚ) : Option ℚ :=
  match a, b with
  | some x, some y => some (max x y)
  | _, _ => none

/-- Player runtime state.  `liveTimers` counts pending advance timeouts
(the spec's instrumentation count); `refSet` says whether
`advanceTimerRef.current` holds an id, `refLive` whether that id's timeout
is still pending (a fired timeout leaves a stale id in the ref). -/
structure PlayerState where
  liveTimers : Nat := 0
  refSet : Bool := false
  refLive : Bool := false
  powered : Bool := true
  listLen : Nat := 0
  activeIndex : Nat := 0
  videoPaused : Bool := false
  brightness : Option ℚ := some 100
  orientation : Orientation := .landscape
  deriving DecidableEq, Repr

/-- `clearAdvanceTimer`: `window.clearTimeout` on the referenced id (a no-op
when that timeout already fired) and null the ref. -/
def clearAdvanceTimer (s : PlayerState) : PlayerState :=
  if s.refSet then
    { s with liveTimers := s.liveTimers - (if s.refLive then 1 else 0),
             refSet := false, refLive := false }
  else s

/-- `advanceTimerRef.current = window.setTimeout(advance, …)`: a new pending
timeout, the ref overwritten to it. -/
def armAdvanceTimer (s : PlayerState) : PlayerState :=
  { s with liveTimers := s.liveTimers + 1, refSet := true, refLive := true }

/-- `setBackup` timer discipline (video): clear, then arm. -/
def setBackup (s : PlayerState) : PlayerState :=
  armAdvanceTimer (clearAdvanceTimer s)

/-- The referenced pending timeout fires: it is no longer pending, but the
ref still holds its (now stale) id. -/
def fireAdvanceTimer (s : PlayerState) : PlayerState :=
  if s.refLive then { s with liveTimers := s.liveTimers - 1, refLive := false }
  else s

inductive MediaKind
  | image
  | link
  | video
  | unknown
  deriving DecidableEq, Repr

/-- The media `useEffect` of the player page, which runs after every change
of `activeIndex`, `displayList.length`, `powered` or the current item: it
first clears any pending advance timer, bails out when powered off (pausing
the video), when the list is empty, or when the current file is missing; for
an image/link it arms the duration timer, for a video it arms via
`setBackup` once metadata is available (otherwise a `loadedmetadata`
listener defers it), for unknown types it arms a 10s fallback. -/
def mediaEffect (s : PlayerState) (fileFound : Bool) (kind : MediaKind)
    (metadataReady : Bool) : PlayerState :=
  let c := clearAdvanceTimer s
  if !c.powered then { c with videoPaused := true }
  else if c.listLen = 0 then c
  else if !fileFound then c
  else
    match kind with
    | .image | .link => armAdvanceTimer { c with videoPaused := true }
    | .video =>
        let p := { c with videoPaused := false }
        if metadataReady then setBackup p else p
    | .unknown => armAdvanceTimer c

/-- `advance` index arithmetic: `(activeIndex + 1) % displayList.length`
guarded by a non-empty list (the video readiness gating only delays the
switch, it does not change the target index). -/
def advanceIndex (s : PlayerState) : PlayerState :=
  if s.listLen = 0 then s
  else { s with activeIndex := (s.activeIndex + 1) % s.listLen }

/-- `goPrev` index arithmetic: `(activeIndex - 1 + n) % n`. -/
def goPrevIndex (s : PlayerState) : PlayerState :=
  if s.listLen = 0 then s
  else { s with activeIndex := (s.activeIndex + s.listLen - 1) % s.listLen }

/-- A command message `{type, action, value}`. -/
structure CmdMsg where
  type : String := "command"
  action : String
  value : JSVal := .undef
  deriving DecidableEq, Repr

/-- `applyCommand` from the player page.  The source is a sequence of
independent `if (msg.action === '…')` blocks comparing one string against
distinct literals, so at most one block fires and the sequence is rendered
as an if/else chain.  `power off` pauses and clears the pending advance
timer; `power on` restores playback without changing the index (the re-arm
happens in the media effect, whose `powered` dependency changed);
`set_label` only touches localStorage; `brightness` stores
`Math.max(0, Math.min(200, Number(value)))`. -/
def applyCommand (s : PlayerState) (msg : CmdMsg) : PlayerState :=
  if msg.type ≠ "command" then s
  else if msg.action = "power" then
    if msg.value ≠ JSVal.str "off" then
      { s with powered := true, videoPaused := false }
    else
      clearAdvanceTimer { s with powered := false, videoPaused := true }
  else if msg.action = "orientation" then
    { s with orientation :=
        if msg.value = JSVal.str "portrait" then .portrait else .landscape }
  else if msg.action = "set_label" then s
  else if msg.action = "stop" then { s with videoPaused := true }
  else if msg.action = "brightness" then
    { s with brightness := jsMax (some 0) (jsMin (some 200) (toNumber msg.value)) }
  else if msg.action = "next" then advanceIndex s
  else if msg.action = "prev" then goPrevIndex s
  else s

/-- The events that touch the sequencer state: a run of the media effect, a
deferred `loadedmetadata` listener (which calls `setBackup`), the armed
timeout firing, an inbound command, a display-list change, unmount cleanup.
JS execution is single-threaded, so a trace is a list of these. -/
inductive PlayerEvent
  | effectRun (fileFound : Bool) (kind : MediaKind) (metadataReady : Bool)
  | loadedMetadata
  | timerFired
  | command (msg : CmdMsg)
  | listChanged (n : Nat)
  | unmount

def stepEvent (s : PlayerState) : PlayerEvent → PlayerState
  | .effectRun ff k mr => mediaEffect s ff k mr
  | .loadedMetadata => setBackup s
  | .timerFired => fireAdvanceTimer s
  | .command msg => applyCommand s msg
  | .listChanged n => { s with listLen := n }
  | .unmount => clearAdvanceTimer s

def runEvents (s : PlayerState) (evs : List PlayerEvent) : PlayerState :=
  evs.foldl stepEvent s

/-- The ref tracks the single live timer: the ref is set whenever a live
timeout exists, and the number of pending timeouts is 1 or 0 according to
whether the referenced one is live. -/
def timerConsistent (s : PlayerState) : Prop :=
  (s.refLive = true → s.refSet = true) ∧
  s.liveTimers = (if s.refLive then 1 else 0)

def initialPlayerState : PlayerState := {}

/-- `power on` followed by the media-effect re-run its `powered` dependency
triggers. -/
def powerOnRearm (s : PlayerState) (fileFound : Bool) (kind : MediaKind)
    (metadataReady : Bool) : PlayerState :=
  mediaEffect (applyCommand s { action := "power", value := .str "on" })
    fileFound kind metadataReady

/-! ### In-memory store with cascade and validation (`store.ts`, API routes) -/

/-- JS `Map.set`: replace in place when the key exists, else append. -/
def mapSet (k : String) (v : β) (l : List (String × β)) : List (String × β) :=
  if l.any (fun p => p.1 == k) then
    l.map (fun p => if p.1 == k then (k, v) else p)
  else l ++ [(k, v)]

structure StoreState where
  files : List (String × FileItem) := []
  schedules : List (String × ScheduleItem) := []
  deriving Repr

/-- `addFile`: `store.files.set(file.id, file)`. -/
def addFile (f : FileItem) (s : StoreState) : StoreState :=
  { s with files := mapSet f.id f s.files }

/-- `removeFile`: delete the file and, when it existed, every schedule whose
`fileId` references it. -/
def removeFile (id : String) (s : StoreState) : StoreState :=
  if s.files.any (fun p => p.1 == id) then
    { files := s.files.filter (fun p => p.1 != id),
      schedules := s.schedules.filter (fun p => p.2.fileId != id) }
  else s

/-- `POST /api/schedule`: reject with 400 — leaving the store unchanged —
when `fileId` is falsy or absent from the file registry; otherwise
`addSchedule` the item built with that validated `fileId`. -/
def schedulePost (item : ScheduleItem) (s : StoreState) : StoreState :=
  if item.fileId == "" || !(s.files.any (fun p => p.1 == item.fileId)) then s
  else { s with schedules := mapSet item.id item s.schedules }

/-- `removeSchedule`: `store.schedules.delete(id)`. -/
def removeSchedule (id : String) (s : StoreState) : StoreState :=
  { s with schedules := s.schedules.filter (fun p => p.1 != id) }

/-- `loadStoreFromDisk`: restore files kept only when external or still
present on disk, then restore only the schedules whose `fileId` is among
the restored files. -/
def loadStoreFromDisk (diskFiles : List (String × FileItem))
    (diskSchedules : List (String × ScheduleItem))
    (pathExists : String → Bool) (_s : StoreState) : StoreState :=
  let fs := diskFiles.filter
    (fun p => p.2.storage == "external" || (p.2.path != "" && pathExists p.2.path))
  { files := fs,
    schedules := diskSchedules.filter (fun p => fs.any (fun q => q.1 == p.2.fileId)) }

inductive StoreOp
  | addF (f : FileItem)
  | removeF (id : String)
  | schedPost (item : ScheduleItem)
  | removeS (id : String)
  | load (diskFiles : List (String × FileItem))
      (diskSchedules : List (String × ScheduleItem)) (pathExists : String → Bool)

def applyStoreOp (s : StoreState) : StoreOp → StoreState
  | .addF f => addFile f s
  | .removeF id => removeFile id s
  | .schedPost item => schedulePost item s
  | .removeS id => removeSchedule id s
  | .load df ds pe => loadStoreFromDisk df ds pe s

def runStoreOps (ops : List StoreOp) : StoreState :=
  ops.foldl applyStoreOp {}

/-- Referential integrity: every stored schedule references a file key
present in the registry. -/
def storeInvariant (s : StoreState) : Prop :=
  ∀ p ∈ s.schedules, ∃ q ∈ s.files, q.1 = p.2.fileId

/-! ### HTTP-fallback command queue (`/api/commands`) -/

structure CommandRecord where
  ts : ℚ
  payload : String
  deriving DecidableEq, Repr

/-- `POST /api/commands`: push `{ts, payload}` then
`splice(0, length - 200)` when the buffer exceeds 200 entries. -/
def commandsPost (commands : List CommandRecord) (cmd : CommandRecord) :
    List CommandRecord :=
  let l := commands ++ [cmd]
  if 200 < l.length then l.drop (l.length - 200) else l

/-- `GET /api/commands?since=…`: `since > 0` selects the strictly newer
commands, otherwise (absent, 0, negative, NaN) `slice(-20)`. -/
def commandsGet (commands : List CommandRecord) (since : Option ℚ) :
    List CommandRecord :=
  match since with
  | some q =>
      if 0 < q then commands.filter (fun c => decide (q < c.ts))
      else commands.drop (commands.length - 20)
  | none => commands.drop (commands.length - 20)

/-! ### Concrete items used by witnesses and counterexamples -/

def demoRule : ScheduleItem :=
  { id := "r1", fileId := "f1", startAt := 0, endAt := 100, order := 0 }

def demoFileA : FileItem :=
  { id := "a", name := "a.png", mime := "image/png", uploadedAt := 1 }

def demoFileB : FileItem :=
  { id := "b", name := "b.png", mime := "image/png", uploadedAt := 2 }

def demoRegistry : List FileItem := [demoFileA, demoFileB]

def demoEntryOverride : DisplayEntry := { fileId := "a", durationSeconds := some 5 }

def demoEntryPlain : DisplayEntry := { fileId := "a" }

def demoVideoFile : FileItem := { id := "v", name := "v.mp4", mime := "video/mp4" }

def demoSettings : PlayerSettings := {}

def brightnessGarbageMsg : CmdMsg :=
  { action := "brightness", value := .str "abc" }

/-- The two-entry display list left after the third file of three was
deleted while `activeIndex` was 2. -/
def demoShrunkList : List DisplayEntry := [{ fileId := "a" }, { fileId := "b" }]

def powerOffMsg : CmdMsg := { action := "power", value := .str "off" }

def demoPoweredState : PlayerState := { listLen := 2 }

def demoBogusMsg : CmdMsg := { action := "bogus", value := .num 1 }

def demoBrightness500Msg : CmdMsg := { action := "brightness", value := .num 500 }

def demoStoreRule : ScheduleItem :=
  { id := "s1", fileId := "a", startAt := 0, endAt := 100, order := 0 }

def demoStore : StoreState :=
  { files := [("a", demoFileA)], schedules := [("s1", demoStoreRule)] }

def demoCmdA : CommandRecord := { ts := 1, payload := "noop" }

/-! Claim-side characterization of rule eligibility (phrased from the spec
sentence, to be proved equivalent to the filters above). -/

/-- `T ∈ activeWindow(R)`, inclusive at both ends. -/
def activeWindowOk (now : Int) (r : ScheduleItem) : Prop :=
  r.startAt ≤ now ∧ now ≤ r.endAt

/-- Day set unset, or it contains the current weekday. -/
def daysOk (day : Nat) (r : ScheduleItem) : Prop :=
  r.days = none ∨ ∃ ds, r.days = some ds ∧ day ∈ ds

/-- Daily clock window unset, or the minute of day lies within
`[startTime, endTime]` inclusive. -/
def dailyClockOk (mins : Int) (r : ScheduleItem) : Prop :=
  (r.startTime = none ∧ r.endTime = none) ∨
  (∃ a b sv ev, r.startTime = some a ∧ r.endTime = some b ∧
    toMin a = some sv ∧ toMin b = some ev ∧ sv ≤ mins ∧ mins ≤ ev)

/-- A rule whose daily clock window is either entirely absent or given by two
parseable non-empty `"HH:MM"` strings — the shape the schedule-creation API
produces. -/
def wellFormedClock (r : ScheduleItem) : Prop :=
  (r.startTime = none ∧ r.endTime = none) ∨
  (∃ a b, r.startTime = some a ∧ r.endTime = some b ∧ a ≠ "" ∧ b ≠ "" ∧
    (toMin a).isSome ∧ (toMin b).isSome)

/-! ## Theorems -/

theorem mem_jsSortInsert {le : α → α → Bool} {x a : α} :
    ∀ {l : List α}, a ∈ jsSortInsert le x l ↔ a = x ∨ a ∈ l := by
  intro l
  induction l with
  | nil => simp [jsSortInsert]
  | cons y ys ih =>
    by_cases h : le y x = true
    · simp [jsSortInsert, h, ih]
      tauto
    · simp [jsSortInsert, h]

theorem mem_jsSort_foldl {le : α → α → Bool} {a : α} :
    ∀ (l acc : List α),
      a ∈ l.foldl (fun acc x => jsSortInsert le x acc) acc ↔ a ∈ acc ∨ a ∈ l := by
  intro l
  induction l with
  | nil => simp
  | cons x xs ih =>
    intro acc
    simp only [List.foldl_cons, ih, mem_jsSortInsert, List.mem_cons]
    tauto

theorem mem_jsSort {le : α → α → Bool} {a : α} {l : List α} :
    a ∈ jsSort le l ↔ a ∈ l := by
  simp [jsSort, mem_jsSort_foldl]

theorem inTimeWindow_iff_dailyClockOk (mins : Int) (r : ScheduleItem)
    (hwf : wellFormedClock r) :
    inTimeWindow mins r.startTime r.endTime = true ↔ dailyClockOk mins r := by
  rcases hwf with ⟨h1, h2⟩ | ⟨a, b, ha, hb, hane, hbne, hsa, hsb⟩
  · simp [inTimeWindow, strFalsy, h1, h2, dailyClockOk]
  · rcases Option.isSome_iff_exists.mp hsa with ⟨sv, hsv⟩
    rcases Option.isSome_iff_exists.mp hsb with ⟨ev, hev⟩
    have hwin : inTimeWindow mins r.startTime r.endTime =
        decide (sv ≤ mins ∧ mins ≤ ev) := by
      simp [inTimeWindow, strFalsy, ha, hb, hane, hbne, hsv, hev]
    rw [hwin]
    constructor
    · intro h
      have h' : sv ≤ mins ∧ mins ≤ ev := by simpa using h
      exact Or.inr ⟨a, b, sv, ev, ha, hb, hsv, hev, h'.1, h'.2⟩
    · rintro (⟨h1, _⟩ | ⟨a', b', sv', ev', ha', hb', hsv', hev', hle1, hle2⟩)
      · rw [ha] at h1; exact absurd h1 (by simp)
      · rw [ha] at ha'; rw [hb] at hb'
        injection ha' with ha'; injection hb' with hb'
        subst ha'; subst hb'
        rw [hsv] at hsv'; rw [hev] at hev'
        injection hsv' with hsv'; injection hev' with hev'
        subst hsv'; subst hev'
        simp [hle1, hle2]

/-- C1: for every schedule rule `r` and instant (given by `now`, its local
weekday `day` and minute of day `mins`), `r` appears in the resolved
playlist iff it is among the schedules, `now` lies within
`[startAt, endAt]` inclusive, the day set is unset or contains `day`, and
the daily clock window is unset or `mins` lies within
`[startTime, endTime]` inclusive. -/
theorem activePlaylist_mem_iff (now : Int) (day : Nat) (mins : Int)
    (r : ScheduleItem) (schedules : List ScheduleItem)
    (hwf : wellFormedClock r) :
    r ∈ activePlaylist now day mins schedules ↔
      r ∈ schedules ∧ activeWindowOk now r ∧ daysOk day r ∧ dailyClockOk mins r := by
  rw [activePlaylist, mem_jsSort, List.mem_filter, List.mem_filter, List.mem_filter]
  rw [inTimeWindow_iff_dailyClockOk mins r hwf]
  have hdays : ((match r.days with
      | some ds => ds.contains day
      | none => true) = true) ↔ daysOk day r := by
    cases hd : r.days with
    | none => simp [daysOk, hd]
    | some ds => simp [daysOk, hd]
  rw [hdays]
  have hwin : ((decide (r.startAt ≤ now) && decide (now ≤ r.endAt)) = true) ↔
      activeWindowOk now r := by
    simp [activeWindowOk]
  rw [hwin]
  tauto

/-- Witness for C1 at a concrete rule and instant. -/
theorem activePlaylist_mem_iff_witness :
    demoRule ∈ activePlaylist 5 0 0 [demoRule] := by
  refine (activePlaylist_mem_iff 5 0 0 demoRule [demoRule] (Or.inl ⟨rfl, rfl⟩)).mpr ?_
  refine ⟨List.mem_singleton.mpr rfl, ⟨by decide, by decide⟩, Or.inl rfl,
    Or.inl ⟨rfl, rfl⟩⟩

/-- C2: the effective on-screen duration follows the strict hierarchy —
schedule-level override, else file-level override, else the class-specific
global default for images and links, and for videos with neither override
the natural media length plus 0.5 seconds.  Overrides and defaults at or
above the 0.1s floor are returned verbatim. -/
theorem effectiveDuration_precedence (item : DisplayEntry) (file : FileItem)
    (st : PlayerSettings) (nd : Option ℚ) :
    (∀ d : ℚ, item.durationSeconds = some d → 1/10 ≤ d →
        imageLinkTimerSec item file st = d ∧ videoTimerSec item file nd = d) ∧
    (isPosNum item.durationSeconds = false →
      ∀ d : ℚ, file.durationSeconds = some d → 1/10 ≤ d →
        imageLinkTimerSec item file st = d ∧ videoTimerSec item file nd = d) ∧
    (isPosNum item.durationSeconds = false → isPosNum file.durationSeconds = false →
      strStartsWith file.mime "image/" = true → 1/10 ≤ st.defaultImageDuration →
        imageLinkTimerSec item file st = st.defaultImageDuration) ∧
    (isPosNum item.durationSeconds = false → isPosNum file.durationSeconds = false →
      strStartsWith file.mime "image/" = false → strStartsWith file.mime "link/" = true →
      1/10 ≤ st.defaultLinkDuration →
        imageLinkTimerSec item file st = st.defaultLinkDuration) ∧
    (isPosNum item.durationSeconds = false → isPosNum file.durationSeconds = false →
      ∀ d : ℚ, nd = some d → 0 < d → videoTimerSec item file nd = d + 1/2) := by
  refine ⟨?_, ?_, ?_, ?_, ?_⟩
  · intro d hd hge
    have hposd : isPosNum (some d) = true := by simp [isPosNum]; linarith
    constructor
    · simp [imageLinkTimerSec, getEffectiveDuration, hd, hposd]
      linarith
    · simp [videoTimerSec, hd, hposd]
      linarith
  · intro hi d hd hge
    have hposd : isPosNum (some d) = true := by simp [isPosNum]; linarith
    constructor
    · simp [imageLinkTimerSec, getEffectiveDuration, hi, hd, hposd]
      linarith
    · simp [videoTimerSec, hi, hd, hposd]
      linarith
  · intro hi hf himg hge
    have hne : st.defaultImageDuration ≠ 0 := by intro h0; rw [h0] at hge; linarith
    simp [imageLinkTimerSec, getEffectiveDuration, hi, hf, himg, jsOrDefault, hne]
    linarith
  · intro hi hf himg hlnk hge
    have hne : st.defaultLinkDuration ≠ 0 := by intro h0; rw [h0] at hge; linarith
    simp [imageLinkTimerSec, getEffectiveDuration, hi, hf, himg, hlnk, jsOrDefault, hne]
    linarith
  · intro hi hf d hd hdpos
    simp [videoTimerSec, hi, hf, hd, hdpos]

/-- Witness for C2: a 5s schedule override wins for an image; with no
overrides an image gets the 10s global default and a 12s video gets
12.5s. -/
theorem effectiveDuration_precedence_witness :
    imageLinkTimerSec demoEntryOverride demoFileA demoSettings = 5 ∧
    imageLinkTimerSec demoEntryPlain demoFileA demoSettings = 10 ∧
    videoTimerSec demoEntryPlain demoVideoFile (some 12) = 25/2 := by
  refine ⟨((effectiveDuration_precedence demoEntryOverride demoFileA demoSettings
      none).1 5 rfl (by norm_num)).1, ?_, ?_⟩
  · exact (effectiveDuration_precedence demoEntryPlain demoFileA demoSettings
      none).2.2.1 rfl rfl (by decide) (by norm_num [demoSettings])
  · have h := (effectiveDuration_precedence demoEntryPlain demoVideoFile demoSettings
      (some 12)).2.2.2.2 rfl rfl 12 rfl (by norm_num)
    rw [h]; norm_num

/-- C7: for a video with neither a schedule-level nor a file-level override,
the advance timer is armed for the probed natural duration plus exactly
0.5s, and when the metadata duration is unavailable (`none`) or
non-positive, a fixed 30s default replaces the natural duration (timer at
30.5s) rather than stalling. -/
theorem video_natural_duration_fallback (item : DisplayEntry) (file : FileItem)
    (nd : Option ℚ) (h1 : isPosNum item.durationSeconds = false)
    (h2 : isPosNum file.durationSeconds = false) :
    (∀ d : ℚ, nd = some d → 0 < d → videoTimerSec item file nd = d + 1/2) ∧
    (nd = none → videoTimerSec item file nd = 61/2) ∧
    (∀ d : ℚ, nd = some d → d ≤ 0 → videoTimerSec item file nd = 61/2) := by
  refine ⟨?_, ?_, ?_⟩
  · intro d hd hdpos
    simp [videoTimerSec, h1, h2, hd, hdpos]
  · intro hd
    simp [videoTimerSec, h1, h2, hd]
    norm_num
  · intro d hd hdnp
    have : ¬ (0:ℚ) < d := not_lt.mpr hdnp
    simp [videoTimerSec, h1, h2, hd, this]
    norm_num

/-- Witness for C7: natural duration 12.0s fires at 12.5s; unavailable
metadata fires at 30.5s. -/
theorem video_natural_duration_fallback_witness :
    videoTimerSec demoEntryPlain demoVideoFile (some 12) = 25/2 ∧
    videoTimerSec demoEntryPlain demoVideoFile none = 61/2 := by
  constructor
  · have h := (video_natural_duration_fallback demoEntryPlain demoVideoFile
      (some 12) rfl rfl).1 12 rfl (by norm_num)
    rw [h]; norm_num
  · exact (video_natural_duration_fallback demoEntryPlain demoVideoFile
      none rfl rfl).2.1 rfl

/-- C3 counterexample: with two registry files uploaded at instants 1 and 2
and no schedule rules, the fallback display list is NOT the registry in
insertion order — the files endpoint sorts by `uploadedAt` descending, so
the newer file comes first. -/
theorem fallback_order_not_insertion_order :
    playerDisplayList demoRegistry [] 0 0 0 ≠ demoRegistry.map fallbackEntry ∧
    playerDisplayList demoRegistry [] 0 0 0 =
      [fallbackEntry demoFileB, fallbackEntry demoFileA] := by
  constructor
  · decide
  · decide

/-- C3 as amended: the fallback activates iff the filtered rule list is
empty; it then returns one entry per registry file — inheriting the file's
own positive duration override — in the order the files endpoint delivers,
namely `uploadedAt` descending (not registry insertion order); with both
registries empty the result is empty. -/
theorem fallback_displayList_spec (registry : List FileItem)
    (schedules : List ScheduleItem) (now : Int) (day : Nat) (mins : Int) :
    (activePlaylist now day mins schedules = [] →
      playerDisplayList registry schedules now day mins =
        (filesGET registry).map fallbackEntry) ∧
    (activePlaylist now day mins schedules ≠ [] →
      playerDisplayList registry schedules now day mins =
        (activePlaylist now day mins schedules).map ruleEntry) ∧
    (∀ f : FileItem, isPosNum f.durationSeconds = true →
      (fallbackEntry f).durationSeconds = f.durationSeconds) ∧
    (registry = [] → schedules = [] →
      playerDisplayList registry schedules now day mins = []) := by
  refine ⟨?_, ?_, ?_, ?_⟩
  · intro h
    simp [playerDisplayList, displayList, h]
  · intro h
    have hlen : (activePlaylist now day mins schedules).length ≠ 0 := by
      simpa [List.length_eq_zero] using h
    simp [playerDisplayList, displayList, hlen]
  · intro f hf
    simp [fallbackEntry, hf]
  · intro hreg hsch
    subst hreg; subst hsch
    simp [playerDisplayList, displayList, activePlaylist, jsSort, filesGET]

/-- Witness for C3 (amended) at a concrete registry with no rules. -/
theorem fallback_displayList_spec_witness :
    playerDisplayList demoRegistry [] 0 0 0 =
      (filesGET demoRegistry).map fallbackEntry := by
  exact (fallback_displayList_spec demoRegistry [] 0 0 0).1 (by decide)

/-- C4: deleting the file at `activeIndex = 2` of a 3-item list leaves a
2-entry display list with the index out of range; `currentFile` then reads
`displayList[2].fileId` off `undefined` and throws (modelled `.error ()`),
so the player does not reach the reset-to-0 path, contradicting the claim.
The in-range stale-reference path, by contrast, yields `ok none` and is
recoverable. -/
theorem currentFile_out_of_range_error :
    currentFile demoShrunkList 2 demoRegistry = .error () ∧
    currentFile demoShrunkList 1 [] = .ok none := by
  exact ⟨rfl, rfl⟩

theorem timerConsistent_clearAdvanceTimer {s : PlayerState}
    (h : timerConsistent s) :
    timerConsistent (clearAdvanceTimer s) ∧
    (clearAdvanceTimer s).refLive = false ∧
    (clearAdvanceTimer s).liveTimers = 0 := by
  obtain ⟨h1, h2⟩ := h
  obtain ⟨lt, rs, rl, pw, ll, ai, vp, br, od⟩ := s
  simp only [timerConsistent] at h1 h2 ⊢
  cases rs <;> cases rl <;>
    simp_all [clearAdvanceTimer, timerConsistent]

theorem timerConsistent_armAdvanceTimer {s : PlayerState}
    (_hrl : s.refLive = false) (hl : s.liveTimers = 0) :
    timerConsistent (armAdvanceTimer s) := by
  simp [armAdvanceTimer, timerConsistent, hl]

theorem timerConsistent_setBackup {s : PlayerState}
    (h : timerConsistent s) : timerConsistent (setBackup s) := by
  obtain ⟨_, hrl, hl⟩ := timerConsistent_clearAdvanceTimer h
  exact timerConsistent_armAdvanceTimer hrl hl

theorem timerConsistent_fireAdvanceTimer {s : PlayerState}
    (h : timerConsistent s) : timerConsistent (fireAdvanceTimer s) := by
  obtain ⟨h1, h2⟩ := h
  obtain ⟨lt, rs, rl, pw, ll, ai, vp, br, od⟩ := s
  simp only [timerConsistent] at h1 h2 ⊢
  cases rl <;> simp_all [fireAdvanceTimer, timerConsistent]

theorem timerConsistent_mediaEffect {s : PlayerState} (h : timerConsistent s)
    (ff : Bool) (k : MediaKind) (mr : Bool) :
    timerConsistent (mediaEffect s ff k mr) := by
  obtain ⟨hc, hrl, hl⟩ := timerConsistent_clearAdvanceTimer h
  cases k <;>
    (unfold mediaEffect; dsimp only; split_ifs <;>
      first
        | exact hc
        | exact timerConsistent_armAdvanceTimer hrl hl
        | exact timerConsistent_setBackup hc)

theorem timerConsistent_advanceIndex {s : PlayerState}
    (h : timerConsistent s) : timerConsistent (advanceIndex s) := by
  unfold advanceIndex; split_ifs <;> exact h

theorem timerConsistent_goPrevIndex {s : PlayerState}
    (h : timerConsistent s) : timerConsistent (goPrevIndex s) := by
  unfold goPrevIndex; split_ifs <;> exact h

theorem timerConsistent_applyCommand {s : PlayerState} (msg : CmdMsg)
    (h : timerConsistent s) : timerConsistent (applyCommand s msg) := by
  unfold applyCommand
  split_ifs <;>
    first
      | exact h
      | exact (timerConsistent_clearAdvanceTimer
          (s := { s with powered := false, videoPaused := true }) h).1
      | exact timerConsistent_advanceIndex h
      | exact timerConsistent_goPrevIndex h

theorem timerConsistent_stepEvent (s : PlayerState) (e : PlayerEvent)
    (h : timerConsistent s) : timerConsistent (stepEvent s e) := by
  cases e with
  | effectRun ff k mr => exact timerConsistent_mediaEffect h ff k mr
  | loadedMetadata => exact timerConsistent_setBackup h
  | timerFired => exact timerConsistent_fireAdvanceTimer h
  | command msg => exact timerConsistent_applyCommand msg h
  | listChanged n => exact h
  | unmount => exact (timerConsistent_clearAdvanceTimer h).1

theorem timerConsistent_runEvents (evs : List PlayerEvent) :
    ∀ s : PlayerState, timerConsistent s → timerConsistent (runEvents s evs) := by
  induction evs with
  | nil => intro s h; exact h
  | cons e es ih => intro s h; exact ih _ (timerConsistent_stepEvent s e h)

/-- C5: along every event trace from the initial player state — media-effect
runs, deferred metadata listeners, timer firings, commands, list changes,
unmount — at most one advance timeout is ever pending: every site that arms
a timer first cancels the referenced one in the same synchronous step, so
the instrumentation count never exceeds 1. -/
theorem advance_timer_at_most_one (evs : List PlayerEvent) :
    (runEvents initialPlayerState evs).liveTimers ≤ 1 := by
  have h := timerConsistent_runEvents evs initialPlayerState
    ⟨by intro hx; exact absurd hx (by decide), rfl⟩
  obtain ⟨-, h2⟩ := h
  rw [h2]
  split <;> omega

/-- C6: applying `power=off` twice equals applying it once; `power=off`
cancels the pending advance timer (ref nulled, and — given the timer
bookkeeping invariant — no timeout remains pending); `power=on` leaves the
active index unchanged and, via the media-effect re-run its `powered`
dependency triggers, re-arms the timer for the current item. -/
theorem power_off_idempotent_and_on_rearm (s : PlayerState) (ff : Bool)
    (k : MediaKind) (mr : Bool) :
    applyCommand (applyCommand s powerOffMsg) powerOffMsg =
      applyCommand s powerOffMsg ∧
    (applyCommand s powerOffMsg).refSet = false ∧
    (timerConsistent s → (applyCommand s powerOffMsg).refLive = false ∧
      (applyCommand s powerOffMsg).liveTimers = 0) ∧
    (applyCommand s { action := "power", value := .str "on" }).activeIndex =
      s.activeIndex ∧
    (powerOnRearm s ff k mr).activeIndex = s.activeIndex ∧
    (0 < s.listLen → ff = true →
      (k = MediaKind.image ∨ k = MediaKind.link ∨ k = MediaKind.unknown ∨
        (k = MediaKind.video ∧ mr = true)) →
      (powerOnRearm s ff k mr).refLive = true) := by
  obtain ⟨lt, rs, rl, pw, ll, ai, vp, br, od⟩ := s
  refine ⟨?_, ?_, ?_, ?_, ?_, ?_⟩
  · cases rs <;> cases rl <;>
      simp [applyCommand, powerOffMsg, clearAdvanceTimer]
  · cases rs <;> simp [applyCommand, powerOffMsg, clearAdvanceTimer]
  · rintro ⟨h1, h2⟩
    cases rs <;> cases rl <;>
      simp_all [applyCommand, powerOffMsg, clearAdvanceTimer, timerConsistent]
  · simp [applyCommand]
  · cases k <;> cases rs <;>
      (simp [powerOnRearm, applyCommand, mediaEffect, clearAdvanceTimer,
        armAdvanceTimer, setBackup]; split_ifs <;> rfl)
  · intro hll hff hk
    have hll' : ¬ ll = 0 := by
      intro h0
      rw [show (PlayerState.mk lt rs rl pw ll ai vp br od).listLen = ll from rfl,
        h0] at hll
      exact absurd hll (by decide)
    subst hff
    rcases hk with hk | hk | hk | ⟨hk, hmr⟩ <;> subst hk <;>
      cases rs <;>
        simp [powerOnRearm, applyCommand, mediaEffect, clearAdvanceTimer,
          armAdvanceTimer, setBackup, hll']
    <;> simp [hmr]

/-- Witness for C6 at a concrete powered state with a 2-item list. -/
theorem power_off_idempotent_and_on_rearm_witness :
    applyCommand (applyCommand demoPoweredState powerOffMsg) powerOffMsg =
      applyCommand demoPoweredState powerOffMsg ∧
    (powerOnRearm demoPoweredState true MediaKind.image false).refLive = true := by
  refine ⟨(power_off_idempotent_and_on_rearm demoPoweredState true
    MediaKind.image false).1, ?_⟩
  exact (power_off_idempotent_and_on_rearm demoPoweredState true
    MediaKind.image false).2.2.2.2.2 (by decide) rfl (Or.inl rfl)

/-- C8 counterexample: a brightness command whose value is the non-numeric
string `"abc"` is neither clamped nor ignored — `Number('abc')` is NaN,
`Math.max(0, Math.min(200, NaN))` is NaN, and NaN is stored into the
player's brightness state, an invalid value outside 0..200. -/
theorem brightness_nan_counterexample :
    (applyCommand initialPlayerState brightnessGarbageMsg).brightness = none := by
  simp only [applyCommand, brightnessGarbageMsg, initialPlayerState]
  decide

/-- C8 as amended: unknown actions leave the state unchanged, numeric
brightness values are clamped into [0, 200], and navigation keeps the index
in bounds; a non-numeric brightness value, however, is stored as NaN
rather than ignored. -/
theorem command_clamp_or_ignore (s : PlayerState) (msg : CmdMsg) :
    (msg.action ∉ (["power", "orientation", "set_label", "stop", "brightness",
        "next", "prev"] : List String) → applyCommand s msg = s) ∧
    (∀ q : ℚ, msg.type = "command" → msg.action = "brightness" →
      msg.value = JSVal.num q →
      ∃ b : ℚ, (applyCommand s msg).brightness = some b ∧ 0 ≤ b ∧ b ≤ 200) ∧
    (msg.type = "command" → msg.action = "next" → 0 < s.listLen →
      (applyCommand s msg).activeIndex < s.listLen) := by
  refine ⟨?_, ?_, ?_⟩
  · intro hmem
    simp only [List.mem_cons, List.mem_singleton, not_or] at hmem
    obtain ⟨h1, h2, h3, h4, h5, h6, h7⟩ := hmem
    simp [applyCommand, h1, h2, h3, h4, h5, h6, h7]
  · intro q htype haction hval
    refine ⟨max 0 (min 200 q), ?_, le_max_left _ _,
      max_le (by norm_num) (min_le_left _ _)⟩
    simp [applyCommand, htype, haction, hval, toNumber, jsMin, jsMax]
  · intro htype haction hll
    have hne : ¬ s.listLen = 0 := Nat.pos_iff_ne_zero.mp hll
    simp [applyCommand, htype, haction, advanceIndex, hne]
    exact Nat.mod_lt _ hll

/-- Witness for C8 (amended): an unknown action is a no-op and a numeric
brightness of 500 is stored clamped within range. -/
theorem command_clamp_or_ignore_witness :
    applyCommand initialPlayerState demoBogusMsg = initialPlayerState ∧
    ∃ b : ℚ, (applyCommand initialPlayerState demoBrightness500Msg).brightness =
      some b ∧ 0 ≤ b ∧ b ≤ 200 := by
  refine ⟨(command_clamp_or_ignore initialPlayerState demoBogusMsg).1
    (by decide), ?_⟩
  exact (command_clamp_or_ignore initialPlayerState demoBrightness500Msg).2.1
    500 rfl rfl rfl

theorem mem_mapSet {β : Type} {k : String} {v : β} {l : List (String × β)}
    {p : String × β} (hp : p ∈ mapSet k v l) : p = (k, v) ∨ p ∈ l := by
  unfold mapSet at hp
  split_ifs at hp with h
  · rcases List.mem_map.mp hp with ⟨q, hq, hqe⟩
    by_cases hk : (q.1 == k) = true
    · rw [if_pos hk] at hqe
      exact Or.inl hqe.symm
    · rw [if_neg hk] at hqe
      exact Or.inr (hqe ▸ hq)
  · rcases List.mem_append.mp hp with h | h
    · exact Or.inr h
    · exact Or.inl (List.mem_singleton.mp h)

theorem keys_mapSet {β : Type} {k : String} {v : β} {l : List (String × β)}
    {q : String × β} (hq : q ∈ l) : ∃ r ∈ mapSet k v l, r.1 = q.1 := by
  unfold mapSet
  split_ifs with h
  · refine ⟨if (q.1 == k) = true then (k, v) else q,
      List.mem_map.mpr ⟨q, hq, rfl⟩, ?_⟩
    by_cases hk : (q.1 == k) = true
    · rw [if_pos hk]
      exact (beq_iff_eq.mp hk).symm
    · rw [if_neg hk]
  · exact ⟨q, List.mem_append.mpr (Or.inl hq), rfl⟩

theorem storeInvariant_applyStoreOp (s : StoreState) (op : StoreOp)
    (h : storeInvariant s) : storeInvariant (applyStoreOp s op) := by
  cases op with
  | addF f =>
      intro p hp
      rcases h p hp with ⟨q, hq, hqk⟩
      rcases keys_mapSet (k := f.id) (v := f) hq with ⟨r, hr, hrk⟩
      exact ⟨r, hr, by rw [hrk, hqk]⟩
  | removeF id =>
      intro p hp
      show ∃ q ∈ (removeFile id s).files, q.1 = p.2.fileId
      have hp' : p ∈ (removeFile id s).schedules := hp
      unfold removeFile at hp' ⊢
      split_ifs at hp' ⊢ with hex
      · rcases List.mem_filter.mp hp' with ⟨hpd, hpne⟩
        rcases h p hpd with ⟨q, hq, hqk⟩
        refine ⟨q, List.mem_filter.mpr ⟨hq, ?_⟩, hqk⟩
        rw [bne_iff_ne] at hpne ⊢
        rw [hqk]
        exact hpne
      · exact h p hp'
  | schedPost item =>
      intro p hp
      show ∃ q ∈ (schedulePost item s).files, q.1 = p.2.fileId
      have hp' : p ∈ (schedulePost item s).schedules := hp
      unfold schedulePost at hp' ⊢
      split_ifs at hp' ⊢ with hrej
      · exact h p hp'
      · rcases mem_mapSet hp' with hpe | hpold
        · subst hpe
          have hany : s.files.any (fun p => p.1 == item.fileId) = true := by
            cases hA : s.files.any (fun p => p.1 == item.fileId) with
            | true => rfl
            | false => exact absurd (by simp [hA]) hrej
          rcases List.any_eq_true.mp hany with ⟨q, hq, hqk⟩
          exact ⟨q, hq, beq_iff_eq.mp hqk⟩
        · exact h p hpold
  | removeS id =>
      intro p hp
      exact h p (List.mem_filter.mp hp).1
  | load df ds pe =>
      intro p hp
      rcases List.mem_filter.mp hp with ⟨hpd, hcond⟩
      rcases List.any_eq_true.mp hcond with ⟨q, hq, hqk⟩
      exact ⟨q, hq, beq_iff_eq.mp hqk⟩

/-- C9: referential integrity of the store — every operation (file add,
file remove with its schedule cascade, schedule creation with its fileId
validation, schedule removal, load-from-disk with its orphan dropping)
preserves the invariant that each stored schedule references an existing
file, and consequently the invariant holds after any sequence of operations
from the empty store. -/
theorem store_referential_integrity :
    (∀ (s : StoreState) (op : StoreOp), storeInvariant s →
      storeInvariant (applyStoreOp s op)) ∧
    (∀ ops : List StoreOp, storeInvariant (runStoreOps ops)) := by
  constructor
  · exact storeInvariant_applyStoreOp
  · intro ops
    have hrun : ∀ (l : List StoreOp) (s : StoreState), storeInvariant s →
        storeInvariant (l.foldl applyStoreOp s) := by
      intro l
      induction l with
      | nil => intro s h; exact h
      | cons o os ih => intro s h; exact ih _ (storeInvariant_applyStoreOp s o h)
    refine hrun ops {} ?_
    intro p hp
    exact absurd hp (List.not_mem_nil p)

/-- Witness for C9: deleting file "a" from a store holding one file and one
schedule referencing it leaves a store satisfying the invariant. -/
theorem store_referential_integrity_witness :
    storeInvariant (applyStoreOp demoStore (StoreOp.removeF "a")) := by
  refine store_referential_integrity.1 demoStore (StoreOp.removeF "a") ?_
  intro p hp
  have hp' : p = ("s1", demoStoreRule) := by
    simpa [demoStore] using hp
  subst hp'
  exact ⟨("a", demoFileA), by simp [demoStore], rfl⟩

/-- C10: after any POST the command buffer holds at most 200 entries, the
kept entries are a suffix of the pushed buffer (oldest trimmed first), and a
GET with positive `since` returns exactly the buffered commands with
timestamp strictly greater than `since` — in particular a command whose
timestamp equals `since` is never redelivered. -/
theorem commands_bounded_and_filtered (commands : List CommandRecord)
    (cmd c : CommandRecord) (q : ℚ) :
    (commandsPost commands cmd).length ≤ 200 ∧
    List.IsSuffix (commandsPost commands cmd) (commands ++ [cmd]) ∧
    (0 < q → (c ∈ commandsGet commands (some q) ↔ c ∈ commands ∧ q < c.ts)) ∧
    (0 < q → c ∈ commands → c.ts = q → c ∉ commandsGet commands (some q)) := by
  refine ⟨?_, ?_, ?_, ?_⟩
  · unfold commandsPost
    dsimp only
    split_ifs with h
    · rw [List.length_drop]
      omega
    · omega
  · unfold commandsPost
    dsimp only
    split_ifs with h
    · exact List.drop_suffix _ _
    · exact List.suffix_refl _
  · intro hq
    unfold commandsGet
    dsimp only
    rw [if_pos hq]
    simp [List.mem_filter]
  · intro hq hc hts
    unfold commandsGet
    dsimp only
    rw [if_pos hq]
    simp only [List.mem_filter, decide_eq_true_eq, not_and]
    intro _
    rw [hts]
    exact lt_irrefl q

/-- Witness for C10: a command stamped exactly at the caller's `since` value
is not returned. -/
theorem commands_bounded_and_filtered_witness :
    demoCmdA ∉ commandsGet [demoCmdA] (some 1) := by
  exact (commands_bounded_and_filtered [demoCmdA] demoCmdA demoCmdA 1).2.2.2
    (by norm_num) (List.mem_singleton.mpr rfl) rfl

end Signage
